import Mathlib

/-!
pkgsite-metrics: job requests, the sandbox runner, advisory conversion, task creation.

A shallow embedding of

* `internal/worker/jobs.go` (`Server.handleJobs`, `processJobRequest`),
* `internal/sandbox/runner.go` (`main`),
* `vulndb.Convert` and `createGovulncheckQueueTasks` / `listModes`, of which the
  repository snapshot holds only the tests,

followed by the properties of these that the specification states.

Go values are embedded as follows. An `error` is `Option GoError` (`none` is `nil`),
an interface is a record of its methods over an explicit state, a `nil`-able slice is
an `Option (List _)`, and every effect (a store call, a write, a log line, an exec) is
threaded through an explicit state and recorded in it.
-/

namespace PkgsiteMetrics

/-! ## Errors -/

/-- Go `[]byte`. -/
abbrev Bytes := List UInt8

deriving instance DecidableEq for Except

/-- An `error` value, as far as `jobs.go` builds and inspects one.  A formatted error
keeps its format string and operands instead of a rendered text. -/
inductive GoError where
  /-- A package-level error variable, identified by its name. -/
  | sentinel (name : String)
  /-- The value of `errors.New(text)`. -/
  | new (text : String)
  /-- The value of `fmt.Errorf(format, args..., wrapped)`, `wrapped` being the operand of `%w`. -/
  | errorf (format : String) (args : List String) (wrapped : GoError)
  /-- The value of `&serverError{err: err, status: status}`. -/
  | serverError (err : GoError) (status : Nat)
  deriving DecidableEq, Repr

/-- The method `Unwrap` of an error: only a `fmt.Errorf` value with `%w` has one here. -/
def GoError.Unwrap : GoError → Option GoError
  | .errorf _ _ w => some w
  | _ => none

/-- Go `errors.Is(err, target)`: `target` occurs on the `Unwrap` chain of `err`. -/
def errors.Is : GoError → GoError → Bool
  | .errorf f a w, target => decide (GoError.errorf f a w = target) || errors.Is w target
  | e, target => decide (e = target)

/-- Go `errors.As(err, &serr)` for `serr *serverError`, returning the status of the
first `serverError` on the `Unwrap` chain. -/
def errors.AsServerError : GoError → Option Nat
  | .serverError _ status => some status
  | .errorf _ _ w => errors.AsServerError w
  | _ => none

/-- Modelled from the spec: `derrors.InvalidArgument`, the error variable of the kind
"InvalidArgument (malformed or missing caller-supplied input)"; package `derrors` is not
part of the snapshot. -/
def derrors.InvalidArgument : GoError := GoError.sentinel "derrors.InvalidArgument"

/-- Modelled from the spec: `derrors.NotFound`, the error variable of the kind
"NotFound (referenced job or entry does not exist)". -/
def derrors.NotFound : GoError := GoError.sentinel "derrors.NotFound"

/-- Modelled from the spec: `derrors.Wrap(&err, ctx)`, which is not part of the snapshot:
it leaves `nil` alone and puts a non-nil error under the context `ctx` with `%w`, so that
the kind is "translated ... without re-interpreting" it. -/
def derrors.Wrap (err : Option GoError) (ctx : String) : Option GoError :=
  match err with
  | none => none
  | some e => some (GoError.errorf "%s: %w" [ctx] e)

/-- What the job handler needs of the absent `derrors.Wrap`: `nil` stays `nil`, and a
non-nil error comes back as an error whose `Unwrap` is the original. -/
def KeepsChain (wrap : Option GoError → String → Option GoError) : Prop :=
  (∀ ctx, wrap none ctx = none) ∧
  ∀ e ctx, ∃ f a, wrap (some e) ctx = some (GoError.errorf f a e)

/-- Go `http.StatusNotImplemented`. -/
def http.StatusNotImplemented : Nat := 501

/-! ## `internal/worker/jobs.go` -/

/-- One observable step of a job request: a method of the store was invoked, or
`Write` was invoked on the response writer. -/
inductive Event (Job : Type) where
  | CreateJob (j : Job)
  | DeleteJob (id : String)
  | GetJob (id : String)
  | UpdateJob (id : String)
  | Write (p : Bytes)
  deriving DecidableEq, Repr

/-- The interface `jobDB` of `jobs.go`, over a store state `σ`.  `GetJob` returns the
Go pair `(*jobs.Job, error)`. -/
structure jobDB (Job σ : Type) where
  CreateJob : σ → Job → σ × Option GoError
  DeleteJob : σ → String → σ × Option GoError
  GetJob : σ → String → σ × Option Job × Option GoError
  UpdateJob : σ → String → (Job → Job × Option GoError) → σ × Option GoError

/-- Go `io.Writer` over a writer state `ω`: `Write(p)` returns `(n, err)`. -/
structure Writer (ω : Type) where
  Write : ω → Bytes → ω × Nat × Option GoError

/-- The state a job request runs in: the store, the response writer, and the record of
the store calls and writes made so far, oldest first. -/
structure World (Job σ ω : Type) where
  store : σ
  out : ω
  trace : List (Event Job)

/-- The call `db.GetJob(ctx, id)`, recorded. -/
def World.GetJob {Job σ ω : Type} (db : jobDB Job σ) (id : String) (s : World Job σ ω) :
    Option Job × Option GoError × World Job σ ω :=
  let r := db.GetJob s.store id
  (r.2.1, r.2.2, { s with store := r.1, trace := s.trace ++ [Event.GetJob id] })

/-- The call `w.Write(p)`, recorded. -/
def World.Write {Job σ ω : Type} (w : Writer ω) (p : Bytes) (s : World Job σ ω) :
    Option GoError × World Job σ ω :=
  let r := w.Write s.out p
  (r.2.2, { s with out := r.1, trace := s.trace ++ [Event.Write p] })

/-- Go `json.NewEncoder(w)` after `SetIndent(pfx, indent)`, then `Encode(v)`: the value is
marshalled, and the indented text followed by a newline goes to `w` in one `Write`; the
error of the marshalling or of the `Write` is returned.  `marshalIndent v pfx indent`
stands for `json.MarshalIndent(v, pfx, indent)`. -/
def Encoder.Encode {Job σ ω : Type}
    (marshalIndent : Option Job → String → String → Except GoError Bytes)
    (w : Writer ω) (pfx indent : String) (v : Option Job) (s : World Job σ ω) :
    Option GoError × World Job σ ω :=
  match marshalIndent v pfx indent with
  | .error e => (some e, s)
  | .ok b => World.Write w (b ++ [10]) s

/-- `processJobRequest(ctx, w, path, jobID, db)` of `jobs.go`. -/
def processJobRequest {Job σ ω : Type}
    (marshalIndent : Option Job → String → String → Except GoError Bytes)
    (w : Writer ω) (path jobID : String) (db : jobDB Job σ) (s : World Job σ ω) :
    Option GoError × World Job σ ω :=
  if path = "/describe" then
    if jobID = "" then
      (some (GoError.errorf "missing jobid: %w" [] derrors.InvalidArgument), s)
    else
      match World.GetJob db jobID s with
      | (_, some err, s1) => (some err, s1)
      | (job, none, s1) =>
        let r := Encoder.Encode marshalIndent w "" "    " job s1
        (none, r.2)
  else
    (some (GoError.errorf "unknown path %q: %w" [path] derrors.InvalidArgument), s)

/-- The part of `*http.Request` that `handleJobs` reads: `r.URL.Path` and `r.FormValue`. -/
structure http.Request where
  URLPath : String
  FormValue : String → String

/-- The part of `Server` that `handleJobs` reads: the field `jobDB`, `none` being `nil`. -/
structure Server (Job σ : Type) where
  jobDB : Option (jobDB Job σ)

/-- `Server.handleJobs(w, r)` of `jobs.go`.  The deferred `derrors.Wrap(&err, ...)`
is the parameter `wrap`, applied to the error on the way out. -/
def Server.handleJobs {Job σ ω : Type}
    (wrap : Option GoError → String → Option GoError)
    (marshalIndent : Option Job → String → String → Except GoError Bytes)
    (srv : Server Job σ) (w : Writer ω) (r : http.Request) (s : World Job σ ω) :
    Option GoError × World Job σ ω :=
  let res : Option GoError × World Job σ ω :=
    match srv.jobDB with
    | none =>
      (some (GoError.serverError (GoError.new "jobs DB not configured")
        http.StatusNotImplemented), s)
    | some db =>
      let jobID := r.FormValue "jobid"
      processJobRequest marshalIndent w r.URLPath jobID db s
  (wrap res.1 "Server.handleJobs", res.2)

/-- A writer that keeps everything it is given, like a `bytes.Buffer`. -/
def bufferWriter : Writer Bytes where
  Write := fun buf p => (buf ++ p, p.length, none)

/-- A writer on which every `Write` fails without taking a byte, like a response
whose connection is gone. -/
def brokenWriter : Writer Bytes where
  Write := fun buf _ => (buf, 0, some (GoError.new "write: broken pipe"))

/-- A store over a list of `(id, job)`: `GetJob` finds the job or fails with
`derrors.NotFound`; the other methods are the evident ones. -/
def listDB (Job : Type) : jobDB Job (List (String × Job)) where
  CreateJob := fun st _ => (st, none)
  DeleteJob := fun st id => (st.filter (fun p => p.1 ≠ id), none)
  GetJob := fun st id =>
    match st.find? (fun p => p.1 = id) with
    | some p => (st, some p.2, none)
    | none => (st, none, some (GoError.errorf "job %q: %w" [id] derrors.NotFound))
  UpdateJob := fun st _ _ => (st, none)

/-- A stand-in for `json.MarshalIndent` on jobs that are plain byte strings. -/
def rawMarshal : Option Bytes → String → String → Except GoError Bytes
  | some b, _, _ => .ok b
  | none, _, _ => .ok [110, 117, 108, 108]

/-! ## `internal/sandbox/runner.go` -/

/-- An `error` value as the runner meets one: the text of `Error()`, for an
`*exec.ExitError` also its field `Stderr`, and for a wrapping error the error it wraps.
The captured standard error is held as the sequence of runes that `bytes.TrimSpace`
decodes from it. -/
inductive RunError where
  | other (text : String)
  | exitError (text : String) (Stderr : String)
  | wrapping (text : String) (inner : RunError)
  deriving DecidableEq, Repr

/-- The method `Error()`. -/
def RunError.Error : RunError → String
  | .other t => t
  | .exitError t _ => t
  | .wrapping t _ => t

/-- Go `errors.As(err, &eerr)` for `eerr *exec.ExitError`, returning `eerr.Stderr` of the
first `*exec.ExitError` on the chain. -/
def RunError.AsExitError : RunError → Option String
  | .other _ => none
  | .exitError _ se => some se
  | .wrapping _ inner => inner.AsExitError

/-- Go `unicode.IsSpace`: the Latin-1 spaces and the other code points with the
White_Space property. -/
def unicode.IsSpace (r : Char) : Bool :=
  let n := r.toNat
  if n ≤ 0xFF then
    n = 0x09 || n = 0x0A || n = 0x0B || n = 0x0C || n = 0x0D || n = 0x20 || n = 0x85 || n = 0xA0
  else
    n = 0x1680 || (0x2000 ≤ n && n ≤ 0x200A) || n = 0x2028 || n = 0x2029 || n = 0x202F ||
      n = 0x205F || n = 0x3000

/-- Go `bytes.TrimSpace`: the text without its leading and its trailing runes that
satisfy `unicode.IsSpace`. -/
def bytes.TrimSpace (s : String) : String :=
  ⟨List.rdropWhile unicode.IsSpace (List.dropWhile unicode.IsSpace s.data)⟩

/-- The verb `%v` of package `fmt` on a `[]string`: the elements between brackets,
separated by one blank. -/
def fmt.SprintArgs (args : List String) : String :=
  "[" ++ " ".intercalate args ++ "]"

/-- The variable `cmd` of `main`: the fields of the embedded `exec.Cmd` that the input
document names, and `AppendToEnv`.  `Env = none` is the `nil` slice of an omitted or
`null` field; `some []` is the empty list. -/
structure Cmd where
  Path : String
  Args : List String
  Env : Option (List String)
  Dir : String
  AppendToEnv : Bool
  deriving DecidableEq, Repr

/-- Lines 41 to 43 of `runner.go`:
`if cmd.AppendToEnv { cmd.Env = append(os.Environ(), cmd.Env...) }`. -/
def Cmd.withEnv (environ : List String) (cmd : Cmd) : Cmd :=
  if cmd.AppendToEnv then { cmd with Env := some (environ ++ cmd.Env.getD []) } else cmd

/-- Go `strings.IndexByte(kv, 0) != -1`: the entry holds a NUL byte. -/
def hasNUL (kv : String) : Bool :=
  kv.data.any (fun c => c = Char.ofNat 0)

/-- The key `dedupEnv` of `os/exec` reads off an entry: the text before the first `=`;
when the entry starts with `=`, the text before the next `=`, or the empty key when
there is no other; and no key at all for an entry without `=`. -/
def exec.entryKey (kv : String) : Option String :=
  match kv.data with
  | [] => none
  | c :: rest =>
    if c = '=' then
      if '=' ∈ rest then some ⟨c :: rest.takeWhile (fun x => x ≠ '=')⟩ else some ""
    else
      if '=' ∈ rest then some ⟨c :: rest.takeWhile (fun x => x ≠ '=')⟩ else none

/-- The loop of `dedupEnvCase` of `os/exec` on a POSIX system, run over the entries from
the last to the first, `saw` being the keys met so far: an entry with a NUL byte is
left out, an entry without `=` is kept unless it is empty, and an entry whose key was
met already is left out.  The result is in the order of the run. -/
def exec.dedupLoop (saw : List String) : List String → List String
  | [] => []
  | kv :: rest =>
    if hasNUL kv then exec.dedupLoop saw rest
    else
      match exec.entryKey kv with
      | none => if kv = "" then exec.dedupLoop saw rest else kv :: exec.dedupLoop saw rest
      | some k =>
        if k ∈ saw then exec.dedupLoop saw rest else kv :: exec.dedupLoop (k :: saw) rest

/-- The function `dedupEnv` of `os/exec`: "a copy of env with any duplicates removed, in
favor of later values", in the original order, and an error when an entry holds a NUL
byte. -/
def exec.dedupEnv (env : List String) : List String × Option RunError :=
  ((exec.dedupLoop [] env.reverse).reverse,
   if env.any hasNUL then some (RunError.other "exec: environment variable contains NUL")
   else none)

/-- The method `environ` of `exec.Cmd` on a POSIX system, by which `os/exec` computes the
environment of the child of a process whose own environment is `inherited`.  A nil `Env`
stands for the inherited environment, followed by `PWD=` and the absolute path of `Dir`
when `Dir` is set; `abs` is `filepath.Abs`.  The list then goes through `dedupEnv`.  With
an error the child is not started. -/
def Cmd.Environ (inherited : List String) (abs : String → String × Option RunError)
    (cmd : Cmd) : List String × Option RunError :=
  let r : List String × Option RunError :=
    match cmd.Env with
    | some env => (env, none)
    | none =>
      if cmd.Dir = "" then (inherited, none)
      else
        match abs cmd.Dir with
        | (pwd, none) => (inherited ++ ["PWD=" ++ pwd], none)
        | (_, some e) => (inherited, some e)
  let d := exec.dedupEnv r.1
  (d.1, match r.2 with
        | none => d.2
        | some e => some e)

/-- How `os.Stdout.Write(out)` ends.  It writes all of `out` and returns a nil error; or
it returns an error `err` after `n` bytes; or, the error after `n` bytes being `EPIPE`,
the Go runtime raises `SIGPIPE` inside `Write` and the process dies of it (a process
that ignores `SIGPIPE` gets the error back instead, which is the case before). -/
inductive WriteResult where
  | ok
  | failed (n : Nat) (err : RunError)
  | sigpipe (n : Nat)
  deriving DecidableEq, Repr

/-- How the process ends: it exits with a status, or a signal kills it. -/
inductive ExitStatus where
  | exited (code : Nat)
  | signaled (signal : String)
  deriving DecidableEq, Repr

/-- What a run of the runner is given: the result of `io.ReadAll(os.Stdin)`, of
`json.Unmarshal(in, &cmd)`, of `os.Environ()`, of `filepath.Abs`, of `cmd.Output()` and
of `os.Stdout.Write(out)`.  A Go pair `(value, err)` is a pair here. -/
structure Sys where
  ReadAll : Bytes × Option RunError
  Unmarshal : Bytes → Cmd × Option RunError
  Environ : List String
  Abs : String → String × Option RunError
  Output : Cmd → Bytes × Option RunError
  StdoutWrite : Bytes → WriteResult

/-- One call of the logger, which writes to standard error under the heading `runner: `.
The lines of `log.Printf("read %q", in)` and `log.Printf("cmd: %+v", cmd)` keep their
operand; the line of `log.Fatal` or `log.Fatalf` keeps its message. -/
inductive LogLine where
  | starting
  | read (input : Bytes)
  | cmd (c : Cmd)
  | fatal (msg : String)
  | succeeded
  deriving DecidableEq, Repr

/-- What a run leaves behind: the bytes on standard output, the log on standard error,
the commands that were executed, and how the process ended. -/
structure Outcome where
  stdout : Bytes
  log : List LogLine
  execs : List Cmd
  status : ExitStatus
  deriving DecidableEq, Repr

/-- The message of `log.Fatalf("%v failed with %s", cmd.Args, s)`, lines 47 to 52 of
`runner.go`. -/
def failureMessage (cmd : Cmd) (err : RunError) : String :=
  let s := err.Error
  let s := match err.AsExitError with
    | some stderr => s ++ ": " ++ bytes.TrimSpace stderr
    | none => s
  fmt.SprintArgs cmd.Args ++ " failed with " ++ s

/-- The function `main` of `runner.go`.  `log.Fatal` logs and exits with status 1;
returning from `main` exits with status 0; a write to standard output that meets a
closed pipe ends the process by `SIGPIPE` before `Write` returns. -/
def main (sys : Sys) : Outcome :=
  let log0 := [LogLine.starting]
  match sys.ReadAll with
  | (_, some err) => ⟨[], log0 ++ [LogLine.fatal err.Error], [], ExitStatus.exited 1⟩
  | (input, none) =>
    let log1 := log0 ++ [LogLine.read input]
    match sys.Unmarshal input with
    | (_, some err) => ⟨[], log1 ++ [LogLine.fatal err.Error], [], ExitStatus.exited 1⟩
    | (cmd0, none) =>
      let cmd := cmd0.withEnv sys.Environ
      let log2 := log1 ++ [LogLine.cmd cmd]
      match sys.Output cmd with
      | (_, some err) =>
        ⟨[], log2 ++ [LogLine.fatal (failureMessage cmd err)], [cmd], ExitStatus.exited 1⟩
      | (out, none) =>
        match sys.StdoutWrite out with
        | WriteResult.sigpipe n => ⟨out.take n, log2, [cmd], ExitStatus.signaled "SIGPIPE"⟩
        | WriteResult.failed n err =>
          ⟨out.take n, log2 ++ [LogLine.fatal err.Error], [cmd], ExitStatus.exited 1⟩
        | WriteResult.ok => ⟨out, log2 ++ [LogLine.succeeded], [cmd], ExitStatus.exited 0⟩

/-- A run whose command appends `PATH=/sandbox/bin` and `MODE=scan` to an inherited
environment that also sets `PATH`; the child exits with status 1. -/
def sysAppend : Sys where
  ReadAll := ([123, 125], none)
  Unmarshal := fun _ =>
    (⟨"/bin/scan", ["scan", "-json", "./..."], some ["PATH=/sandbox/bin", "MODE=scan"], "/work",
      true⟩, none)
  Environ := ["PATH=/usr/bin", "HOME=/root"]
  Abs := fun dir => (dir, none)
  Output := fun _ => ([], some (RunError.exitError "exit status 1" "\n  scan: no go.mod \n"))
  StdoutWrite := fun _ => WriteResult.ok

/-- A run in which the child completes with the output `hi` and the write to standard
output meets a closed pipe after one byte. -/
def sysClosedPipe : Sys where
  ReadAll := ([123, 125], none)
  Unmarshal := fun _ => (⟨"/bin/echo", ["echo", "hi"], some [], "", false⟩, none)
  Environ := ["HOME=/root"]
  Abs := fun dir => (dir, none)
  Output := fun _ => ([104, 105], none)
  StdoutWrite := fun _ => WriteResult.sigpipe 1

/-! ## `vulndb.Convert` -/

/-- The type `osv.RangeEvent`, with the fields `TestConvert` sets. -/
structure osv.RangeEvent where
  Introduced : String
  Fixed : String
  deriving DecidableEq, Repr

/-- The type `osv.Range`. -/
structure osv.Range where
  Events : List osv.RangeEvent
  deriving DecidableEq, Repr

/-- The type `osv.Module`. -/
structure osv.Module where
  Path : String
  deriving DecidableEq, Repr

/-- The type `osv.Affected`. -/
structure osv.Affected where
  Module : osv.Module
  Ranges : List osv.Range
  deriving DecidableEq, Repr

/-- The type `osv.Entry`, the upstream advisory. -/
structure osv.Entry where
  ID : String
  Affected : List osv.Affected
  deriving DecidableEq, Repr

/-- The type `vulndb.Range`: an introduced/fixed pair. -/
structure vulndb.Range where
  Introduced : String
  Fixed : String
  deriving DecidableEq, Repr

/-- The type `vulndb.Module`. -/
structure vulndb.Module where
  Path : String
  Ranges : List vulndb.Range
  deriving DecidableEq, Repr

/-- The type `vulndb.Entry`, as far as `Convert` fills it: the ID and the modules. -/
structure vulndb.Entry where
  ID : String
  Modules : List vulndb.Module
  deriving DecidableEq, Repr

/-- Modelled from the spec: the ranges of one affected module, which `vulndb.go` (absent)
computes: "the flattened concatenation of that module's range-event pairs, preserving
order and performing no merging or sorting".  Every event of every range, in turn, is
appended as one range. -/
def vulndb.convertRanges (rs : List osv.Range) : List vulndb.Range :=
  rs.foldl (fun ranges r =>
    r.Events.foldl (fun ranges e => ranges ++ [⟨e.Introduced, e.Fixed⟩]) ranges) []

/-- Modelled from the spec: `vulndb.Convert`, whose file `vulndb.go` is absent: it
"copies the advisory ID; for each affected-module entry in the advisory, emits one
VulnModule whose Ranges is the flattened concatenation of that module's range-event
pairs". -/
def vulndb.Convert (oe : osv.Entry) : vulndb.Entry :=
  { ID := oe.ID
    Modules := oe.Affected.foldl
      (fun modules a => modules ++ [⟨a.Module.Path, vulndb.convertRanges a.Ranges⟩]) [] }

/-- The range that stands for one event. -/
def vulndb.rangeOf (e : osv.RangeEvent) : vulndb.Range := ⟨e.Introduced, e.Fixed⟩

/-- The advisory `oe` of `TestConvert`. -/
def testConvertEntry : osv.Entry :=
  { ID := "a"
    Affected := [
      ⟨⟨"example.mod/a"⟩, [⟨[⟨"0", ""⟩, ⟨"", "0.9.0"⟩]⟩]⟩,
      ⟨⟨"a.example.mod/a"⟩, [⟨[⟨"1.0.0", ""⟩, ⟨"", "2.0.0"⟩]⟩]⟩] }

/-- The entry `want` of `TestConvert`. -/
def testConvertWant : vulndb.Entry :=
  { ID := "a"
    Modules := [
      ⟨"example.mod/a", [⟨"0", ""⟩, ⟨"", "0.9.0"⟩]⟩,
      ⟨"a.example.mod/a", [⟨"1.0.0", ""⟩, ⟨"", "2.0.0"⟩]⟩] }

/-! ## `createGovulncheckQueueTasks` and `listModes` -/

/-- Modelled from the spec: the mode constant `ModeBinary` ("binary-mode"); its value is
not in the repository files at hand, and only its being different from `ModeGovulncheck`
matters. -/
def ModeBinary : String := "BINARY"

/-- Modelled from the spec: the mode constant `ModeGovulncheck`, the "default/primary
mode". -/
def ModeGovulncheck : String := "GOVULNCHECK"

/-- Modelled from the spec: "the fixed set of known modes", "in a fixed canonical order
(not insertion order), e.g., binary-mode before source-mode"; the order is the one
`TestListModes` expects. -/
def knownModes : List String := [ModeBinary, ModeGovulncheck]

/-- Modelled from the spec: `listModes(param, all)`, the `selectModes` of the
specification, whose file is absent.  With no mode requested it returns all known modes
when `all` is set and only the default mode otherwise; a requested mode is returned if
it is a known one and is an InvalidArgument error if not. -/
def listModes (param : String) (all : Bool) : Except GoError (List String) :=
  if param = "" then
    if all then .ok knownModes else .ok [ModeGovulncheck]
  else if param ∈ knownModes then .ok [param]
  else .error (GoError.errorf "unknown mode %q: %w" [param] derrors.InvalidArgument)

/-- The type `govulncheck.Request`, a queue task, with the fields `TestCreateQueueTasks`
sets: `ModuleURLPath{Module, Version, Suffix}` and `QueryParams{Mode, ImportedBy}`. -/
structure govulncheck.Request where
  Module : String
  Version : String
  Suffix : String
  Mode : String
  ImportedBy : Nat
  deriving DecidableEq, Repr

/-- Modelled from the spec: one population entry, a triple "(module path, resolved
version, import-count)". -/
structure ModuleSpec where
  Path : String
  Version : String
  ImportedBy : Nat
  deriving DecidableEq, Repr

/-- The part of `config.Config` that task creation reads: the binary storage location,
empty when there is none. -/
structure Config where
  BinaryBucket : String
  deriving DecidableEq, Repr

/-- Modelled from the spec: the identity of a task, "(module path, version, optional
path-suffix within the module, analysis mode)". -/
def govulncheck.Request.identity (t : govulncheck.Request) :
    String × String × String × String :=
  (t.Module, t.Version, t.Suffix, t.Mode)

/-- Modelled from the spec: the task of one population entry in one mode; it carries the
entry's module path, version and import count and has no path suffix. -/
def taskOf (mode : String) (m : ModuleSpec) : govulncheck.Request :=
  ⟨m.Path, m.Version, "", mode, m.ImportedBy⟩

/-- Modelled from the spec: the tasks one mode contributes: "a mode that requires an
external resource not currently configured (e.g., binary-mode requires a configured
binary storage location) contributes zero tasks"; any other mode contributes one task
per population entry, "in the population's iteration order". -/
def modeTasks (cfg : Config) (population : List ModuleSpec) (mode : String) :
    List govulncheck.Request :=
  if mode = ModeBinary ∧ cfg.BinaryBucket = "" then [] else population.map (taskOf mode)

/-- Modelled from the spec: "no two tasks share the same identity tuple — duplicates
collapse to one": a task whose identity was met before is left out. -/
def collapseStep (seen : List govulncheck.Request) (t : govulncheck.Request) :
    List govulncheck.Request :=
  if seen.any (fun u => decide (u.identity = t.identity)) then seen else seen ++ [t]

/-- Modelled from the spec: `createGovulncheckQueueTasks(ctx, cfg, params, modes)`, the
`buildTasks` of the specification, whose file is absent; the population is the list read
from `params.File`.  The tasks are "grouped by mode in the resolved mode list's order,
and within a mode, in the population's iteration order", a mode whose resource is not
configured is skipped silently, and duplicates collapse to one.  There is no failure
in the model. -/
def createGovulncheckQueueTasks (cfg : Config) (population : List ModuleSpec)
    (modes : List String) : Except GoError (List govulncheck.Request) :=
  .ok ((modes.flatMap (modeTasks cfg population)).foldl collapseStep [])

/-- The population of `TestCreateQueueTasks`: the two modules its expected tasks name. -/
def testPopulation : List ModuleSpec :=
  [⟨"github.com/pkg/errors", "v0.9.1", 10⟩, ⟨"golang.org/x/net", "v0.4.0", 20⟩]

/-- A population that lists the module `golang.org/x/net` at `v0.4.0` twice. -/
def doubledPopulation : List ModuleSpec :=
  [⟨"golang.org/x/net", "v0.4.0", 20⟩, ⟨"golang.org/x/net", "v0.4.0", 20⟩]

theorem errors_Is_errorf (f : String) (a : List String) (w t : GoError)
    (h : errors.Is w t = true) : errors.Is (GoError.errorf f a w) t = true := by
  simp [errors.Is, h]

/-! ## Properties of `jobs.go` -/

/-- C1: `processJobRequest` with path `/describe` and an empty job id, or with any other
path whatever the job id, returns an error that wraps `derrors.InvalidArgument`, and the
world it returns is the one it was given: no method of the store was invoked (the store
and the trace are unchanged) and nothing was written (the writer is unchanged). -/
theorem processJobRequest_invalid_argument {Job σ ω : Type}
    (marshalIndent : Option Job → String → String → Except GoError Bytes)
    (w : Writer ω) (path jobID : String) (db : jobDB Job σ) (s : World Job σ ω)
    (h : (path = "/describe" ∧ jobID = "") ∨ path ≠ "/describe") :
    (∃ e, (processJobRequest marshalIndent w path jobID db s).1 = some e ∧
      errors.Is e derrors.InvalidArgument = true) ∧
    (processJobRequest marshalIndent w path jobID db s).2 = s := by
  rcases h with ⟨hp, hj⟩ | hp
  · subst hp hj
    exact ⟨⟨_, rfl, errors_Is_errorf _ _ _ _ (by decide)⟩, rfl⟩
  · simp only [processJobRequest, if_neg hp]
    exact ⟨⟨_, rfl, errors_Is_errorf _ _ _ _ (by decide)⟩, trivial⟩

theorem processJobRequest_invalid_argument_witness :
    (("/jobs/list" = "/describe" ∧ "j1" = "") ∨ "/jobs/list" ≠ "/describe") ∧
    ((∃ e, (processJobRequest rawMarshal bufferWriter "/jobs/list" "j1" (listDB Bytes)
        (World.mk [("j1", [1])] [] [])).1 = some e ∧
      errors.Is e derrors.InvalidArgument = true) ∧
    (processJobRequest rawMarshal bufferWriter "/jobs/list" "j1" (listDB Bytes)
        (World.mk [("j1", [1])] [] [])).2 = World.mk [("j1", [1])] [] []) :=
  ⟨Or.inr (by decide),
   processJobRequest_invalid_argument rawMarshal bufferWriter "/jobs/list" "j1" (listDB Bytes)
     (World.mk [("j1", [1])] [] []) (Or.inr (by decide))⟩

/-- C2: for a non-empty job id and a store whose `GetJob(id)` fails with `e`,
`processJobRequest` with path `/describe` returns exactly `e`; the trace grows by the one
event `GetJob id` and by nothing else (one `GetJob`, no other store call, no `Write`), the
store is the one `GetJob` left, and the writer is unchanged. -/
theorem processJobRequest_get_error {Job σ ω : Type}
    (marshalIndent : Option Job → String → String → Except GoError Bytes)
    (w : Writer ω) (jobID : String) (db : jobDB Job σ) (s : World Job σ ω) (e : GoError)
    (hid : jobID ≠ "") (hget : (db.GetJob s.store jobID).2.2 = some e) :
    (processJobRequest marshalIndent w "/describe" jobID db s).1 = some e ∧
    (processJobRequest marshalIndent w "/describe" jobID db s).2.trace
      = s.trace ++ [Event.GetJob jobID] ∧
    (processJobRequest marshalIndent w "/describe" jobID db s).2.store
      = (db.GetJob s.store jobID).1 ∧
    (processJobRequest marshalIndent w "/describe" jobID db s).2.out = s.out := by
  simp [processJobRequest, hid, World.GetJob, hget]

theorem processJobRequest_get_error_witness :
    "nojob" ≠ "" ∧
    ((listDB Bytes).GetJob [("j1", [1])] "nojob").2.2
      = some (GoError.errorf "job %q: %w" ["nojob"] derrors.NotFound) ∧
    (processJobRequest rawMarshal bufferWriter "/describe" "nojob" (listDB Bytes)
        (World.mk [("j1", [1])] [] [])).1
      = some (GoError.errorf "job %q: %w" ["nojob"] derrors.NotFound) ∧
    (processJobRequest rawMarshal bufferWriter "/describe" "nojob" (listDB Bytes)
        (World.mk [("j1", [1])] [] [])).2.trace = [] ++ [Event.GetJob "nojob"] :=
  ⟨by decide, by decide,
   (processJobRequest_get_error rawMarshal bufferWriter "nojob" (listDB Bytes)
     (World.mk [("j1", [1])] [] [])
     (GoError.errorf "job %q: %w" ["nojob"] derrors.NotFound) (by decide) (by decide)).1,
   (processJobRequest_get_error rawMarshal bufferWriter "nojob" (listDB Bytes)
     (World.mk [("j1", [1])] [] [])
     (GoError.errorf "job %q: %w" ["nojob"] derrors.NotFound) (by decide) (by decide)).2.1⟩

/-- C3: let the deferred `derrors.Wrap` keep `nil` and put a non-nil error under a
context.  With `jobDB == nil`, `handleJobs` fails with an error that carries a
`serverError` of status 501; the world is unchanged (no store call, no write) and the
outcome is the same for every request, `processJobRequest` not being reached.  With
`jobDB` set to `db`, the world it returns is that of
`processJobRequest(ctx, w, r.URL.Path, r.FormValue("jobid"), db)` and its error is that
call's error handed to the deferred `derrors.Wrap`: `nil` when that is `nil`, and
otherwise an error whose `Unwrap` is exactly that error. -/
theorem handleJobs_not_implemented_or_process {Job σ ω : Type}
    (wrap : Option GoError → String → Option GoError)
    (marshalIndent : Option Job → String → String → Except GoError Bytes)
    (srv : Server Job σ) (w : Writer ω) (r : http.Request) (s : World Job σ ω)
    (hwrap : KeepsChain wrap) :
    (srv.jobDB = none →
      (∃ e, (srv.handleJobs wrap marshalIndent w r s).1 = some e ∧
        errors.AsServerError e = some http.StatusNotImplemented ∧
        http.StatusNotImplemented = 501) ∧
      (srv.handleJobs wrap marshalIndent w r s).2 = s ∧
      ∀ r2 : http.Request, srv.handleJobs wrap marshalIndent w r2 s
        = srv.handleJobs wrap marshalIndent w r s) ∧
    (∀ db, srv.jobDB = some db →
      srv.handleJobs wrap marshalIndent w r s
        = (wrap (processJobRequest marshalIndent w r.URLPath (r.FormValue "jobid") db s).1
            "Server.handleJobs",
           (processJobRequest marshalIndent w r.URLPath (r.FormValue "jobid") db s).2) ∧
      ((processJobRequest marshalIndent w r.URLPath (r.FormValue "jobid") db s).1 = none →
        (srv.handleJobs wrap marshalIndent w r s).1 = none) ∧
      ∀ e, (processJobRequest marshalIndent w r.URLPath (r.FormValue "jobid") db s).1
          = some e →
        ∃ e2, (srv.handleJobs wrap marshalIndent w r s).1 = some e2 ∧
          e2.Unwrap = some e) := by
  obtain ⟨hnil, hsome⟩ := hwrap
  refine ⟨fun hdb => ?_, fun db hdb => ?_⟩
  · obtain ⟨f, a, hw⟩ := hsome
      (GoError.serverError (GoError.new "jobs DB not configured") http.StatusNotImplemented)
      "Server.handleJobs"
    refine ⟨⟨GoError.errorf f a (GoError.serverError (GoError.new "jobs DB not configured")
      http.StatusNotImplemented), ?_, ?_, rfl⟩, ?_, ?_⟩
    · simp only [Server.handleJobs, hdb]
      exact hw
    · simp [errors.AsServerError]
    · simp [Server.handleJobs, hdb]
    · intro r2
      simp [Server.handleJobs, hdb]
  · refine ⟨?_, ?_, ?_⟩
    · simp [Server.handleJobs, hdb]
    · intro h
      simp [Server.handleJobs, hdb, h, hnil]
    · intro e h
      obtain ⟨f, a, hw⟩ := hsome e "Server.handleJobs"
      exact ⟨GoError.errorf f a e, by simp only [Server.handleJobs, hdb, h]; exact hw, rfl⟩

theorem derrors_Wrap_keepsChain : KeepsChain derrors.Wrap :=
  ⟨fun _ => rfl, fun _ _ => ⟨_, _, rfl⟩⟩

theorem handleJobs_not_implemented_or_process_witness :
    KeepsChain derrors.Wrap ∧
    (Server.handleJobs derrors.Wrap rawMarshal (Server.mk (none : Option (jobDB Bytes Unit)))
        bufferWriter (http.Request.mk "/describe" (fun _ => "j1")) (World.mk () [] [])).1
      = some (GoError.errorf "%s: %w" ["Server.handleJobs"]
          (GoError.serverError (GoError.new "jobs DB not configured") 501)) ∧
    ((∃ e, (Server.handleJobs derrors.Wrap rawMarshal
          (Server.mk (none : Option (jobDB Bytes Unit)))
          bufferWriter (http.Request.mk "/describe" (fun _ => "j1")) (World.mk () [] [])).1 = some e ∧
        errors.AsServerError e = some http.StatusNotImplemented ∧
        http.StatusNotImplemented = 501) ∧
      (Server.handleJobs derrors.Wrap rawMarshal (Server.mk (none : Option (jobDB Bytes Unit)))
          bufferWriter (http.Request.mk "/describe" (fun _ => "j1")) (World.mk () [] [])).2
        = World.mk () [] [] ∧
      ∀ r2 : http.Request, Server.handleJobs derrors.Wrap rawMarshal
          (Server.mk (none : Option (jobDB Bytes Unit))) bufferWriter r2 (World.mk () [] [])
        = Server.handleJobs derrors.Wrap rawMarshal
          (Server.mk (none : Option (jobDB Bytes Unit)))
          bufferWriter (http.Request.mk "/describe" (fun _ => "j1")) (World.mk () [] [])) :=
  ⟨derrors_Wrap_keepsChain, rfl,
   (handleJobs_not_implemented_or_process derrors.Wrap rawMarshal
     (Server.mk (none : Option (jobDB Bytes Unit))) bufferWriter
     (http.Request.mk "/describe" (fun _ => "j1")) (World.mk () [] [])
     derrors_Wrap_keepsChain).1 rfl⟩

theorem processJobRequest_writes_job {Job σ : Type}
    (marshalIndent : Option Job → String → String → Except GoError Bytes)
    (jobID : String) (db : jobDB Job σ) (s : World Job σ Bytes) (j : Option Job) (b : Bytes)
    (hid : jobID ≠ "") (hget : (db.GetJob s.store jobID).2 = (j, none))
    (hjson : marshalIndent j "" "    " = .ok b) :
    (processJobRequest marshalIndent bufferWriter "/describe" jobID db s).1 = none ∧
    (processJobRequest marshalIndent bufferWriter "/describe" jobID db s).2.out
      = s.out ++ (b ++ [10]) := by
  have h1 : (db.GetJob s.store jobID).2.1 = j := by rw [hget]
  have h2 : (db.GetJob s.store jobID).2.2 = none := by rw [hget]
  simp [processJobRequest, hid, World.GetJob, h1, h2, Encoder.Encode, hjson, World.Write,
    bufferWriter]

/-- C4, the code at a writer that fails: the store holds job `j1`, `GetJob` returns it
without error, and every `Write` of the response writer fails.  `processJobRequest`
with path `/describe` reports success (`nil`) although the one `Write` it attempted,
of the indented text and a newline, left nothing in the response: the error of
`enc.Encode(job)` is dropped. -/
theorem processJobRequest_success_without_output :
    ((listDB Bytes).GetJob [("j1", [123, 125])] "j1").2 = (some [123, 125], none) ∧
    (processJobRequest rawMarshal brokenWriter "/describe" "j1" (listDB Bytes)
        (World.mk [("j1", [123, 125])] [] [])).1 = none ∧
    (processJobRequest rawMarshal brokenWriter "/describe" "j1" (listDB Bytes)
        (World.mk [("j1", [123, 125])] [] [])).2.out = [] ∧
    (processJobRequest rawMarshal brokenWriter "/describe" "j1" (listDB Bytes)
        (World.mk [("j1", [123, 125])] [] [])).2.trace
      = [Event.GetJob "j1", Event.Write [123, 125, 10]] ∧
    (Encoder.Encode rawMarshal brokenWriter "" "    " (some [123, 125])
        (World.mk [("j1", [123, 125])] ([] : Bytes) [Event.GetJob "j1"])).1
      = some (GoError.new "write: broken pipe") := by
  refine ⟨by decide, by decide, by decide, by decide, by decide⟩

/-! ## Properties of `runner.go` -/

theorem trim_decompose (p : Char → Bool) (l : List Char) :
    ∃ pre post, l = pre ++ List.rdropWhile p (List.dropWhile p l) ++ post ∧
      (∀ c ∈ pre, p c = true) ∧ (∀ c ∈ post, p c = true) := by
  refine ⟨List.takeWhile p l, List.rtakeWhile p (List.dropWhile p l), ?_, ?_, ?_⟩
  · have h1 : List.rdropWhile p (List.dropWhile p l) ++ List.rtakeWhile p (List.dropWhile p l)
        = List.dropWhile p l := by
      have h := List.takeWhile_append_dropWhile p (List.dropWhile p l).reverse
      have h2 := congrArg List.reverse h
      simp only [List.reverse_append, List.reverse_reverse] at h2
      simpa [List.rdropWhile, List.rtakeWhile] using h2
    rw [List.append_assoc, h1, List.takeWhile_append_dropWhile]
  · intro c hc
    exact List.mem_takeWhile_imp hc
  · intro c hc
    exact List.mem_rtakeWhile_imp hc

theorem trim_head_not (p : Char → Bool) (l : List Char) (c : Char)
    (h : (List.rdropWhile p (List.dropWhile p l)).head? = some c) : p c = false := by
  have hpre : List.rdropWhile p (List.dropWhile p l) <+: List.dropWhile p l :=
    List.rdropWhile_prefix p _
  obtain ⟨t, ht⟩ := hpre
  have hd := List.head?_dropWhile_not p l
  cases hm : List.rdropWhile p (List.dropWhile p l) with
  | nil => rw [hm] at h; simp at h
  | cons x xs =>
    rw [hm] at h ht
    simp only [List.head?_cons, Option.some.injEq] at h
    subst h
    rw [← ht] at hd
    simpa using hd

theorem trim_last_not (p : Char → Bool) (l : List Char) (c : Char)
    (h : (List.rdropWhile p (List.dropWhile p l)).getLast? = some c) : p c = false := by
  have hne : List.rdropWhile p (List.dropWhile p l) ≠ [] := by
    intro h0
    rw [h0] at h
    simp at h
  have hl := List.rdropWhile_last_not p (List.dropWhile p l) hne
  rw [List.getLast?_eq_getLast _ hne] at h
  simp only [Option.some.injEq] at h
  rw [h] at hl
  simpa using hl

theorem string_append_ne_self (a b : String) (hb : b ≠ "") : a ++ b ≠ a := by
  intro h
  have h2 := congrArg String.data h
  simp only [String.data_append] at h2
  have h3 : b.data = [] := by simpa using h2
  apply hb
  exact String.ext h3


theorem runner_closed_pipe :
    (main sysClosedPipe).stdout = [104] ∧
    (main sysClosedPipe).status = ExitStatus.signaled "SIGPIPE" ∧
    (main sysClosedPipe).log.getLast?
      = some (LogLine.cmd ⟨"/bin/echo", ["echo", "hi"], some [], "", false⟩) := by
  refine ⟨by decide, by decide, by decide⟩

theorem withEnv_Args (environ : List String) (cmd : Cmd) :
    (cmd.withEnv environ).Args = cmd.Args := by
  unfold Cmd.withEnv
  split <;> rfl

/-- C8: in a run whose command fails with `err`, the run ends with status 1 and its last
log line is the message `<cmd.Args> failed with <err.Error()>`, the argument vector
printed with `%v`.  When `err` is not an `*exec.ExitError` the message is just that; when
it is one, the message goes on with `: ` and `bytes.TrimSpace` of the captured standard
error; so the message has that extension if and only if `err` is an `*exec.ExitError`.
The trimmed text is the captured text without a leading and a trailing run of spaces:
what was cut off is all whitespace, what is left neither starts nor ends with
whitespace, and everything between is kept as it was. -/
theorem runner_failure_message (sys : Sys) (input out : Bytes) (cmd : Cmd) (err : RunError)
    (hread : sys.ReadAll = (input, none)) (hparse : sys.Unmarshal input = (cmd, none))
    (hout : sys.Output (cmd.withEnv sys.Environ) = (out, some err)) :
    (main sys).log.getLast?
      = some (LogLine.fatal (failureMessage (cmd.withEnv sys.Environ) err)) ∧
    (main sys).status = ExitStatus.exited 1 ∧
    (err.AsExitError = none →
      failureMessage (cmd.withEnv sys.Environ) err
        = fmt.SprintArgs cmd.Args ++ " failed with " ++ err.Error) ∧
    (∀ stderr, err.AsExitError = some stderr →
      failureMessage (cmd.withEnv sys.Environ) err
        = fmt.SprintArgs cmd.Args ++ " failed with " ++ err.Error ++ ": "
            ++ bytes.TrimSpace stderr) ∧
    ((∃ t, failureMessage (cmd.withEnv sys.Environ) err
        = fmt.SprintArgs cmd.Args ++ " failed with " ++ err.Error ++ ": " ++ t)
      ↔ err.AsExitError ≠ none) ∧
    (∀ stderr, err.AsExitError = some stderr →
      ∃ pre post, stderr.data = pre ++ (bytes.TrimSpace stderr).data ++ post ∧
        (∀ c ∈ pre, unicode.IsSpace c = true) ∧ (∀ c ∈ post, unicode.IsSpace c = true) ∧
        (∀ c, (bytes.TrimSpace stderr).data.head? = some c → unicode.IsSpace c = false) ∧
        (∀ c, (bytes.TrimSpace stderr).data.getLast? = some c →
          unicode.IsSpace c = false)) := by
  have hm : main sys = ⟨[], [LogLine.starting] ++ [LogLine.read input] ++
      [LogLine.cmd (cmd.withEnv sys.Environ)] ++
      [LogLine.fatal (failureMessage (cmd.withEnv sys.Environ) err)],
      [cmd.withEnv sys.Environ], ExitStatus.exited 1⟩ := by
    simp only [main, hread, hparse, hout]
  have hnone : err.AsExitError = none →
      failureMessage (cmd.withEnv sys.Environ) err
        = fmt.SprintArgs cmd.Args ++ " failed with " ++ err.Error := by
    intro h
    simp only [failureMessage, h, withEnv_Args]
  have hsome : ∀ stderr, err.AsExitError = some stderr →
      failureMessage (cmd.withEnv sys.Environ) err
        = fmt.SprintArgs cmd.Args ++ " failed with " ++ err.Error ++ ": "
            ++ bytes.TrimSpace stderr := by
    intro stderr h
    simp only [failureMessage, h, withEnv_Args, String.append_assoc]
  refine ⟨by rw [hm]; simp, by rw [hm], hnone, hsome, ?_, ?_⟩
  · constructor
    · rintro ⟨t, ht⟩ hn
      rw [hnone hn, String.append_assoc _ ": " t] at ht
      refine string_append_ne_self _ (": " ++ t) ?_ ht.symm
      intro h0
      have h1 := congrArg String.data h0
      simp at h1
    · intro hne
      cases hs : err.AsExitError with
      | none => exact absurd hs hne
      | some stderr => exact ⟨_, hsome stderr hs⟩
  · intro stderr _
    obtain ⟨pre, post, hd, hpre, hpost⟩ := trim_decompose unicode.IsSpace stderr.data
    exact ⟨pre, post, hd, hpre, hpost,
      fun c hc => trim_head_not unicode.IsSpace stderr.data c hc,
      fun c hc => trim_last_not unicode.IsSpace stderr.data c hc⟩

set_option maxRecDepth 100000 in
theorem runner_failure_message_witness :
    sysAppend.ReadAll = ([123, 125], none) ∧
    (sysAppend.Output ((sysAppend.Unmarshal [123, 125]).1.withEnv sysAppend.Environ)).2
      = some (RunError.exitError "exit status 1" "\n  scan: no go.mod \n") ∧
    failureMessage ((sysAppend.Unmarshal [123, 125]).1.withEnv sysAppend.Environ)
        (RunError.exitError "exit status 1" "\n  scan: no go.mod \n")
      = "[scan -json ./...] failed with exit status 1: scan: no go.mod" ∧
    (main sysAppend).log.getLast?
      = some (LogLine.fatal (failureMessage
          ((sysAppend.Unmarshal [123, 125]).1.withEnv sysAppend.Environ)
          (RunError.exitError "exit status 1" "\n  scan: no go.mod \n"))) :=
  ⟨rfl, rfl, by decide,
   (runner_failure_message sysAppend [123, 125] [] (sysAppend.Unmarshal [123, 125]).1
     (RunError.exitError "exit status 1" "\n  scan: no go.mod \n") rfl rfl rfl).1⟩

/-! ## Properties of `vulndb.Convert` -/

theorem foldl_append_singleton {α β : Type} (f : α → β) (l : List α) (acc : List β) :
    l.foldl (fun acc a => acc ++ [f a]) acc = acc ++ l.map f := by
  induction l generalizing acc with
  | nil => simp
  | cons a l ih => simp [ih]

theorem convertRanges_eq (rs : List osv.Range) :
    vulndb.convertRanges rs = (rs.flatMap (fun r => r.Events)).map vulndb.rangeOf := by
  have h : ∀ acc : List vulndb.Range,
      rs.foldl (fun ranges r =>
        r.Events.foldl (fun ranges e => ranges ++ [⟨e.Introduced, e.Fixed⟩]) ranges) acc
      = acc ++ (rs.flatMap (fun r => r.Events)).map vulndb.rangeOf := by
    induction rs with
    | nil => intro acc; simp
    | cons r rs ih =>
      intro acc
      simp only [List.foldl_cons]
      rw [ih]
      have h2 := foldl_append_singleton vulndb.rangeOf r.Events acc
      simp only [vulndb.rangeOf] at h2 ⊢
      rw [h2]
      simp [List.flatMap_cons]
  simpa [vulndb.convertRanges] using h []

theorem length_flatMap_events (rs : List osv.Range) :
    (rs.flatMap (fun r => r.Events)).length = (rs.map (fun r => r.Events.length)).sum := by
  induction rs with
  | nil => rfl
  | cons r rs ih => simp [List.flatMap_cons, ih]

theorem convert_modules (oe : osv.Entry) :
    (vulndb.Convert oe).Modules
      = oe.Affected.map (fun a => ⟨a.Module.Path, vulndb.convertRanges a.Ranges⟩) := by
  have h := foldl_append_singleton
    (fun a : osv.Affected => (⟨a.Module.Path, vulndb.convertRanges a.Ranges⟩ : vulndb.Module))
    oe.Affected []
  simpa [vulndb.Convert] using h

/-- C9: for every advisory `oe`, `Convert(oe)` has the ID of `oe`, as many modules as `oe`
has affected entries, and, position by position, the module of an affected entry has
that entry's module path and, as its ranges, one range per event of that entry, over all
its ranges in order, with the Introduced and Fixed of the event: no merging, sorting or
dropping, so the number of ranges is the total number of events.  On the advisory of
`TestConvert` the result is the entry the test expects. -/
theorem convert_preserves_structure (oe : osv.Entry) :
    (vulndb.Convert oe).ID = oe.ID ∧
    (vulndb.Convert oe).Modules.length = oe.Affected.length ∧
    List.Forall₂
      (fun (a : osv.Affected) (m : vulndb.Module) =>
        m.Path = a.Module.Path ∧
        m.Ranges = (a.Ranges.flatMap (fun r => r.Events)).map
          (fun e => (⟨e.Introduced, e.Fixed⟩ : vulndb.Range)) ∧
        m.Ranges.length = (a.Ranges.map (fun r => r.Events.length)).sum)
      oe.Affected (vulndb.Convert oe).Modules ∧
    vulndb.Convert testConvertEntry = testConvertWant := by
  refine ⟨rfl, ?_, ?_, by decide⟩
  · rw [convert_modules, List.length_map]
  · rw [convert_modules, List.forall₂_map_right_iff, List.forall₂_same]
    intro a _
    refine ⟨rfl, ?_, ?_⟩
    · simp only [convertRanges_eq]
      rfl
    · simp only [convertRanges_eq, List.length_map, length_flatMap_events]

/-! ## Properties of `createGovulncheckQueueTasks` -/

theorem collapse_nodup (l acc : List govulncheck.Request)
    (h : ((acc ++ l).map govulncheck.Request.identity).Nodup) :
    l.foldl collapseStep acc = acc ++ l := by
  induction l generalizing acc with
  | nil => simp
  | cons t l ih =>
    have hnot : (acc.any (fun u => decide (u.identity = t.identity))) = false := by
      rw [Bool.eq_false_iff]
      intro hany
      rw [List.any_eq_true] at hany
      obtain ⟨u, hu, hut⟩ := hany
      have hut2 : u.identity = t.identity := of_decide_eq_true hut
      rw [List.map_append, List.map_cons, List.nodup_append] at h
      exact h.2.2 (List.mem_map_of_mem _ hu) (hut2 ▸ List.mem_cons_self _ _)
    simp only [List.foldl_cons, collapseStep, hnot]
    have h2 : (((acc ++ [t]) ++ l).map govulncheck.Request.identity).Nodup := by
      simpa using h
    simpa using ih (acc ++ [t]) h2

theorem collapse_subset (l acc : List govulncheck.Request) (t : govulncheck.Request)
    (h : t ∈ l.foldl collapseStep acc) : t ∈ acc ∨ t ∈ l := by
  induction l generalizing acc with
  | nil => exact Or.inl h
  | cons u l ih =>
    simp only [List.foldl_cons] at h
    rcases ih _ h with h1 | h1
    · unfold collapseStep at h1
      split at h1
      · exact Or.inl h1
      · rcases List.mem_append.mp h1 with h2 | h2
        · exact Or.inl h2
        · simp only [List.mem_singleton] at h2
          exact Or.inr (h2 ▸ List.mem_cons_self _ _)
    · exact Or.inr (List.mem_cons_of_mem _ h1)

theorem modes_flatMap_all (cfg : Config) (population : List ModuleSpec)
    (hcfg : cfg.BinaryBucket = "") :
    [ModeBinary, ModeGovulncheck].flatMap (modeTasks cfg population)
      = population.map (taskOf ModeGovulncheck) := by
  have hb : modeTasks cfg population ModeBinary = [] := by
    simp [modeTasks, hcfg]
  have hg : modeTasks cfg population ModeGovulncheck
      = population.map (taskOf ModeGovulncheck) := by
    have hne : ¬ (ModeGovulncheck = ModeBinary) := by decide
    simp [modeTasks, hne]
  simp [List.flatMap_cons, hb, hg]

theorem modes_flatMap_one (cfg : Config) (population : List ModuleSpec) :
    [ModeGovulncheck].flatMap (modeTasks cfg population)
      = population.map (taskOf ModeGovulncheck) := by
  have hne : ¬ (ModeGovulncheck = ModeBinary) := by decide
  simp [List.flatMap_cons, modeTasks, hne]

/-- C10, the claim at a population that lists a module twice: with no binary storage
location and the full mode list, the module `golang.org/x/net` at `v0.4.0`, listed
twice, gets one govulncheck task, the two tasks of the same identity having collapsed to
one: not one task per population entry. -/
theorem createQueueTasks_duplicates_collapse :
    listModes "" true = .ok [ModeBinary, ModeGovulncheck] ∧
    createGovulncheckQueueTasks ⟨""⟩ doubledPopulation [ModeBinary, ModeGovulncheck]
      = .ok [⟨"golang.org/x/net", "v0.4.0", "", ModeGovulncheck, 20⟩] ∧
    doubledPopulation.length = 2 ∧
    createGovulncheckQueueTasks ⟨""⟩ doubledPopulation [ModeBinary, ModeGovulncheck]
      ≠ .ok (doubledPopulation.map (taskOf ModeGovulncheck)) := by
  refine ⟨by decide, by decide, by decide, by decide⟩

/-- C10 as amended: with no binary storage location, `createGovulncheckQueueTasks` on the
mode list of `listModes("", true)`, binary mode and govulncheck mode, succeeds and
returns the very task list it returns on the govulncheck mode alone.  No task of it is
a binary-mode task, and when no two population entries share module path and version,
it is one govulncheck-mode task per population entry, in the population's order, with
that entry's module path, version and import count. -/
theorem createQueueTasks_skips_binary (cfg : Config) (population : List ModuleSpec)
    (hcfg : cfg.BinaryBucket = "") :
    listModes "" true = .ok [ModeBinary, ModeGovulncheck] ∧
    createGovulncheckQueueTasks cfg population [ModeBinary, ModeGovulncheck]
      = createGovulncheckQueueTasks cfg population [ModeGovulncheck] ∧
    ∃ tasks, createGovulncheckQueueTasks cfg population [ModeBinary, ModeGovulncheck]
        = .ok tasks ∧
      (∀ t ∈ tasks, t.Mode = ModeGovulncheck ∧ t.Mode ≠ ModeBinary) ∧
      ((population.map (fun m => (m.Path, m.Version))).Nodup →
        tasks = population.map
          (fun m => ⟨m.Path, m.Version, "", ModeGovulncheck, m.ImportedBy⟩)) := by
  refine ⟨by decide, ?_, _, rfl, ?_, ?_⟩
  · simp only [createGovulncheckQueueTasks, modes_flatMap_all cfg population hcfg,
      modes_flatMap_one]
  · intro t ht
    rw [modes_flatMap_all cfg population hcfg] at ht
    rcases collapse_subset _ _ t ht with h | h
    · simp at h
    · obtain ⟨m, -, hm⟩ := List.mem_map.mp h
      subst hm
      have hne : ModeGovulncheck ≠ ModeBinary := by decide
      exact ⟨rfl, hne⟩
  · intro hnd
    rw [modes_flatMap_all cfg population hcfg]
    have hid : ((([] : List govulncheck.Request) ++ population.map (taskOf ModeGovulncheck)).map
        govulncheck.Request.identity).Nodup := by
      have hinj : Function.Injective
          (fun pv : String × String => (pv.1, pv.2, "", ModeGovulncheck)) := by
        intro x y hxy
        simp only [Prod.mk.injEq, and_true] at hxy
        exact Prod.ext hxy.1 hxy.2
      have h2 := hnd.map hinj
      simpa [List.map_map, Function.comp_def, govulncheck.Request.identity, taskOf] using h2
    have h3 := collapse_nodup _ [] hid
    simpa [taskOf] using h3

theorem createQueueTasks_skips_binary_witness :
    (Config.mk "").BinaryBucket = "" ∧
    (testPopulation.map (fun m => (m.Path, m.Version))).Nodup ∧
    createGovulncheckQueueTasks ⟨""⟩ testPopulation [ModeBinary, ModeGovulncheck]
      = createGovulncheckQueueTasks ⟨""⟩ testPopulation [ModeGovulncheck] ∧
    ∃ tasks, createGovulncheckQueueTasks ⟨""⟩ testPopulation [ModeBinary, ModeGovulncheck]
        = .ok tasks ∧
      tasks = [⟨"github.com/pkg/errors", "v0.9.1", "", ModeGovulncheck, 10⟩,
               ⟨"golang.org/x/net", "v0.4.0", "", ModeGovulncheck, 20⟩] :=
  ⟨rfl, by decide,
   (createQueueTasks_skips_binary ⟨""⟩ testPopulation rfl).2.1,
   match (createQueueTasks_skips_binary ⟨""⟩ testPopulation rfl).2.2 with
   | ⟨tasks, h1, _, h3⟩ => ⟨tasks, h1, (h3 (by decide)).trans rfl⟩⟩

end PkgsiteMetrics
